import Mathlib

/-
  Verification development for the form-state module `src/index.tsx` of
  abstract-inc/react-hooks-form-builder.

  The module is embedded shallowly:
  * JavaScript values are modelled by the mutual inductive `JSVal` / `JSObj`
    (plain objects are insertion-ordered association lists, as in JS).
  * The lodash `set` / `get` dependency is modelled by `lodashSetObj` /
    `lodashGetObj` over parsed paths, with `toPath` modelling lodash's
    dot/bracket path parsing.  Array-index segments are treated as string
    keys of plain objects; path resolution is unaffected by this choice.
  * The reducer, its action table, the form controller's submission and
    initial-data logic, and the two field accessors are translated
    definition by definition below.
  * A second, heap-level embedding of the `ON_FIELD_VALUE_CHANGE` handler
    (`onFieldValueChangeH`) makes object identity and in-place mutation
    observable; it is used to analyse the purity contract.
-/

/-! ## JavaScript values -/

mutual
/-- A JavaScript runtime value, as far as this module manipulates them:
primitives plus plain objects. -/
inductive JSVal where
  | undef : JSVal
  | null : JSVal
  | bool (b : Bool) : JSVal
  | num (n : Int) : JSVal
  | str (s : String) : JSVal
  | obj (fields : JSObj) : JSVal
deriving DecidableEq

/-- A plain JavaScript object: an insertion-ordered list of key/value
bindings.  A well-formed JS object has no duplicate keys (`objKeys _ |>.Nodup`). -/
inductive JSObj where
  | nil : JSObj
  | cons (key : String) (value : JSVal) (rest : JSObj) : JSObj
deriving DecidableEq
end

/-- Property read `o[k]`: the first binding of `k`, or `undefined`. -/
def objGet : JSObj → String → JSVal
  | .nil, _ => .undef
  | .cons k' v rest, k => if k' = k then v else objGet rest k

/-- Property write `o[k] = v`: replaces the first binding of `k` in place
(keeping its position, as JS objects do), or appends a new binding. -/
def objSet : JSObj → String → JSVal → JSObj
  | .nil, k, v => .cons k v .nil
  | .cons k' v' rest, k, v =>
    if k' = k then .cons k v rest else .cons k' v' (objSet rest k v)

/-- The keys of an object, in insertion order. -/
def objKeys : JSObj → List String
  | .nil => []
  | .cons k _ rest => k :: objKeys rest

/-- Object spread `{...a, ...b}`: every binding of `b` is written into a copy
of `a`, in order. -/
def jsSpread : JSObj → JSObj → JSObj
  | a, .nil => a
  | a, .cons k v rest => jsSpread (objSet a k v) rest

/-- JavaScript truthiness of a value. -/
def jsTruthy : JSVal → Bool
  | .undef => false
  | .null => false
  | .bool b => b
  | .num n => n != 0
  | .str s => s != ""
  | .obj _ => true

/-- JavaScript `a || b`. -/
def jsOr (a b : JSVal) : JSVal := if jsTruthy a then a else b

/-! ## Field paths (model of the lodash path syntax)

`toPath` models how lodash parses the dot/bracket path strings this module
uses (e.g. `"address.city"`, `"items[0].name"`): `'.'` and `'['` end the
current segment, `']'` is dropped.  Quoted bracket segments are not used by
this repository and are not modelled. -/

def toPathAux : List Char → String → List String
  | [], cur => [cur]
  | c :: rest, cur =>
    if c = '.' ∨ c = '[' then cur :: toPathAux rest ""
    else if c = ']' then toPathAux rest cur
    else toPathAux rest (cur.push c)

/-- Parse a path string into its list of segments. -/
def toPath (s : String) : List String := toPathAux s.data ""

/-- Model of lodash `set(o, path, v)` at the value level (the result object):
walks the parsed path, descending into existing objects and creating fresh
empty objects for segments whose current value is missing or not an object,
then writes `v` at the final segment. -/
def lodashSetObj : JSObj → List String → JSVal → JSObj
  | o, [], _ => o
  | o, [k], v => objSet o k v
  | o, k :: k2 :: rest, v =>
    objSet o k (.obj (lodashSetObj
      (match objGet o k with | .obj f => f | _ => .nil) (k2 :: rest) v))

/-- Model of lodash `get(o, path)`: walks the parsed path, returning
`undefined` as soon as a step cannot be resolved. -/
def lodashGetObj : JSObj → List String → JSVal
  | o, [] => .obj o
  | o, [k] => objGet o k
  | o, k :: k2 :: rest =>
    match objGet o k with
    | .obj f => lodashGetObj f (k2 :: rest)
    | _ => ( .undef)

/-- Two parsed paths branch when they disagree at some common index; exactly
then is neither a prefix of the other. -/
def pathBranch : List String → List String → Bool
  | [], _ => false
  | _ :: _, [] => false
  | a :: p, b :: q => if a = b then pathBranch p q else true

/-! ## Form state and actions (lines 13-46 of src/index.tsx) -/

/-- The form state (interface `FormBuiderState`, spelling as in the source):
nested field values, a flat error map, and the loading flag. -/
structure FormBuiderState where
  errors : JSObj
  fieldsValues : JSObj
  loadingInitialData : Bool
deriving DecidableEq

/-- `initialState` (lines 37-41). -/
def initialState : FormBuiderState :=
  { fieldsValues := .nil, errors := .nil, loadingInitialData := false }

/-- The three members of `enum FormBuilderActions` (lines 31-35); in the
source each member's value is its own name. -/
def FormBuilderActions.ON_STATE_CHANGE : String := "ON_STATE_CHANGE"

def FormBuilderActions.ON_ERRORS_CHANGE : String := "ON_ERRORS_CHANGE"

def FormBuilderActions.ON_FIELD_VALUE_CHANGE : String := "ON_FIELD_VALUE_CHANGE"

/-- A partial state patch, the payload shape the module dispatches with
`ON_STATE_CHANGE`: the spread `{...state, ...nextValue}` replaces exactly
the state properties the payload carries. -/
structure StatePatch where
  errors : Option JSObj := none
  fieldsValues : Option JSObj := none
  loadingInitialData : Option Bool := none
deriving DecidableEq

/-- The payload shapes this module constructs at its dispatch sites: a
partial state patch, or a `{name, value}` record. -/
inductive FormPayload where
  | patch (nextValue : StatePatch) : FormPayload
  | field (name : String) (value : JSVal) : FormPayload
deriving DecidableEq

/-- A dispatched action (interface `FormBuilderActionMapType`, lines 43-46):
a type string together with a payload.  The type is an arbitrary string, as
the reducer must cope with unrecognized types. -/
structure FormBuilderActionMapType where
  type : String
  payload : FormPayload
deriving DecidableEq

/-- Convenience constructor for `ON_FIELD_VALUE_CHANGE` actions, as built by
`onFieldChange` (lines 121-129). -/
def fieldValueChangeAction (name : String) (value : JSVal) : FormBuilderActionMapType :=
  { type := FormBuilderActions.ON_FIELD_VALUE_CHANGE, payload := .field name value }

/-- Convenience constructor for `ON_ERRORS_CHANGE` actions, as built by the
hook accessor's `onChange` (lines 232-246). -/
def errorsChangeAction (name : String) (value : JSVal) : FormBuilderActionMapType :=
  { type := FormBuilderActions.ON_ERRORS_CHANGE, payload := .field name value }

/-- Convenience constructor for `ON_STATE_CHANGE` actions, as dispatched by
`loadInitialData` (lines 130-152). -/
def stateChangeAction (nextValue : StatePatch) : FormBuilderActionMapType :=
  { type := FormBuilderActions.ON_STATE_CHANGE, payload := .patch nextValue }

/-! ## The action table and the reducer (lines 47-108) -/

/-- `actionsMap[FormBuilderActions.ON_STATE_CHANGE]` (lines 53-56):
`{ ...state, ...nextValue }`. -/
def onStateChange (state : FormBuiderState) (nextValue : StatePatch) : FormBuiderState :=
  { errors := nextValue.errors.getD state.errors
    fieldsValues := nextValue.fieldsValues.getD state.fieldsValues
    loadingInitialData := nextValue.loadingInitialData.getD state.loadingInitialData }

/-- `actionsMap[FormBuilderActions.ON_ERRORS_CHANGE]` (lines 57-60):
`{ ...state, errors: { ...state.errors, [data.name]: data.value } }`. -/
def onErrorsChange (state : FormBuiderState) (name : String) (value : JSVal) : FormBuiderState :=
  { state with errors := objSet state.errors name value }

/-- `actionsMap[FormBuilderActions.ON_FIELD_VALUE_CHANGE]` (lines 61-70):
`{ ...state, fieldsValues: { ...state.fieldsValues,
                             ...set({ ...state.fieldsValues }, name, value) } }`.
At the value level the shallow copy `{...state.fieldsValues}` is the
identity, so the inner expression is the (value of the) lodash `set` result,
spread over the previous `fieldsValues`. -/
def onFieldValueChange (state : FormBuiderState) (name : String) (value : JSVal) : FormBuiderState :=
  { state with
    fieldsValues :=
      jsSpread state.fieldsValues (lodashSetObj state.fieldsValues (toPath name) value) }

/-- The keys of the `actionsMap` table (lines 47-71). -/
def actionsMapKeys : List String :=
  [FormBuilderActions.ON_STATE_CHANGE,
   FormBuilderActions.ON_ERRORS_CHANGE,
   FormBuilderActions.ON_FIELD_VALUE_CHANGE]

/-- Looking up `actionsMap[action.type]` and applying it to the state and
payload.  Payload shapes follow the module's dispatch sites; a type paired
with a payload shape the module never constructs leaves the state as is. -/
def actionsMapApply (type : String) (state : FormBuiderState) (payload : FormPayload) :
    FormBuiderState :=
  match type, payload with
  | "ON_STATE_CHANGE", .patch nextValue => onStateChange state nextValue
  | "ON_ERRORS_CHANGE", .field name value => onErrorsChange state name value
  | "ON_FIELD_VALUE_CHANGE", .field name value => onFieldValueChange state name value
  | _, _ => state

/-- The reducer (lines 98-108): when `action.type` is a key of `actionsMap`
the matching handler is applied, otherwise the state is returned unchanged.
The model is a total function; no exception path exists. -/
def reducer (state : FormBuiderState) (action : FormBuilderActionMapType) : FormBuiderState :=
  if action.type ∈ actionsMapKeys then actionsMapApply action.type state action.payload
  else state

/-- The diagnostic the reducer emits (line 103): for an unrecognized type it
logs a message naming the type, together with the `actionsMap` table (here
its keys).  Recognized types log nothing. -/
def reducerDiagnostic (action : FormBuilderActionMapType) : Option (String × List String) :=
  if action.type ∈ actionsMapKeys then none
  else some ("ACTION [" ++ action.type ++ "] NOT FOUND IN actionsMap", actionsMapKeys)

/-! ## The form controller (lines 114-189) -/

/-- The values object built by the submit handler (lines 169-180): starting
from `{}`, each submitted `(key, value)` entry is written with
`set(values, key, value)`.  FormData entries carry string values. -/
def submitValues (entries : List (String × String)) : JSObj :=
  entries.foldl (fun values kv => lodashSetObj values (toPath kv.1) (.str kv.2)) .nil

/-- A dispatch at an absolute time (milliseconds since mount). -/
structure TimedDispatch where
  time : Nat
  action : FormBuilderActionMapType
deriving DecidableEq

/-- The dispatches performed by `loadInitialData` (lines 130-152) when an
`initialFieldValuesLoader` is configured and resolves to `loaded` at time
`resolveTime`: `ON_STATE_CHANGE{loadingInitialData: true}` synchronously on
mount, and — via `setTimeout(..., 3 * 1000)` — the clearing
`ON_STATE_CHANGE{fieldsValues, loadingInitialData: false}` 3000 ms after the
loader resolves.  The timer is modelled as firing exactly after its delay;
the real `setTimeout` fires no earlier, which only strengthens the
at-least-3-seconds reading. -/
def loadInitialDataDispatches (resolveTime : Nat) (loaded : JSObj) : List TimedDispatch :=
  [ { time := 0,
      action := stateChangeAction { loadingInitialData := some true } },
    { time := resolveTime + 3 * 1000,
      action := stateChangeAction
        { fieldsValues := some loaded, loadingInitialData := some false } } ]

/-- The state visible at time `t`: every dispatch whose time has come,
folded through the reducer in order (the UI runtime serializes dispatches). -/
def stateAt (dispatches : List TimedDispatch) (s0 : FormBuiderState) (t : Nat) :
    FormBuiderState :=
  dispatches.foldl (fun s d => if d.time ≤ t then reducer s d.action else s) s0

/-! ## The field accessors (lines 191-252)

An accessor's result is modelled as the data it hands to its consumer; the
`onChange` callback is modelled by the list of actions it dispatches, so its
effect on a state is `(onChangeActions v).foldl reducer s`.  Both accessors
also pass the context's `dispatch` and `onFieldChange` through unchanged,
which the model keeps implicit. -/

structure FieldBinding where
  fieldError : JSVal
  value : JSVal
  onChangeActions : JSVal → List FormBuilderActionMapType
  state : FormBuiderState

/-- The render-prop accessor `FormBuilderField` (lines 191-214):
`fieldError` is `state.errors[fieldName]`, `value` is
`get(state.fieldsValues, fieldName)` with no default, and `onChange` calls
`onFieldChange(fieldName, value)`, i.e. dispatches one field-value change. -/
def FormBuilderFieldBinding (fieldName : String) (state : FormBuiderState) : FieldBinding :=
  { fieldError := objGet state.errors fieldName
    value := lodashGetObj state.fieldsValues (toPath fieldName)
    onChangeActions := fun value => [fieldValueChangeAction fieldName value]
    state := state }

/-- The actions dispatched by the hook accessor's `onChange` (lines
228-250): with a validator, first an `ON_ERRORS_CHANGE` carrying the
validator's result when that result is truthy and `false` otherwise; then in
every case the field-value change via `onFieldChange`. -/
def useFormBuilderFieldOnChange (validator : Option (JSVal → JSVal)) (fieldName : String)
    (value : JSVal) : List FormBuilderActionMapType :=
  match validator with
  | some validate =>
    let error := validate value
    (if jsTruthy error then errorsChangeAction fieldName error
     else errorsChangeAction fieldName (.bool false))
      :: [fieldValueChangeAction fieldName value]
  | none => [fieldValueChangeAction fieldName value]

/-- The hook accessor `useFormBuilderField` (lines 216-252): like the
render-prop form, except that `value` is
`get(state.fieldsValues, fieldName) || defaultValue` and `onChange` runs the
optional validator first. -/
def useFormBuilderFieldBinding (fieldName : String) (defaultValue : JSVal)
    (validator : Option (JSVal → JSVal)) (state : FormBuiderState) : FieldBinding :=
  { fieldError := objGet state.errors fieldName
    value := jsOr (lodashGetObj state.fieldsValues (toPath fieldName)) defaultValue
    onChangeActions := useFormBuilderFieldOnChange validator fieldName
    state := state }

/-- The state after the hook accessor's `onChange(value)` has run against
`s`: its dispatches folded through the reducer in order. -/
def stateAfterOnChange (validator : Option (JSVal → JSVal)) (fieldName : String)
    (value : JSVal) (s : FormBuiderState) : FormBuiderState :=
  (useFormBuilderFieldOnChange validator fieldName value).foldl reducer s

/-- The spec scenario validator `v => v < 0 && "must be positive"`: for a
negative number the (truthy) message, otherwise `false`. -/
def mustBePositive : JSVal → JSVal
  | .num n => if n < 0 then .str "must be positive" else .bool false
  | _ => .bool false

/-! ## Heap-level embedding of the field-value handler

The value-level embedding above cannot see object identity.  To analyse the
purity contract, the `ON_FIELD_VALUE_CHANGE` handler is embedded once more
over an explicit heap: objects live at addresses, `{...o}` copies only the
top-level bindings (nested objects stay shared), and lodash `set` writes
through references in place — exactly the aliasing the source line
`set({ ...state.fieldsValues }, data.name, data.value)` exposes. -/

/-- A heap value: a primitive, or a reference to a heap object. -/
inductive HVal where
  | undef : HVal
  | bool (b : Bool) : HVal
  | num (n : Int) : HVal
  | str (s : String) : HVal
  | ref (addr : Nat) : HVal
deriving DecidableEq

/-- A heap object: top-level bindings whose values may reference other heap
objects. -/
abbrev HObj := List (String × HVal)

/-- The heap: the object stored at each address; allocation appends. -/
abbrev Heap := List HObj

def objGetH : HObj → String → HVal
  | [], _ => .undef
  | (k', v) :: rest, k => if k' = k then v else objGetH rest k

def objSetH : HObj → String → HVal → HObj
  | [], k, v => [(k, v)]
  | (k', v') :: rest, k, v =>
    if k' = k then (k, v) :: rest else (k', v') :: objSetH rest k v

def heapObj (h : Heap) (addr : Nat) : HObj := (h.get? addr).getD []

def heapWrite (h : Heap) (addr : Nat) (o : HObj) : Heap := h.set addr o

def halloc (h : Heap) (o : HObj) : Heap × Nat := (h ++ [o], h.length)

/-- Heap-level lodash `set(obj at addr, path, v)`: descends through existing
references in place (mutating shared objects), allocating a fresh object
when a segment's current value is not a reference. -/
def lodashSetH (h : Heap) (addr : Nat) : List String → HVal → Heap
  | [], _ => h
  | [k], v => heapWrite h addr (objSetH (heapObj h addr) k v)
  | k :: k2 :: rest, v =>
    match objGetH (heapObj h addr) k with
    | .ref addr' => lodashSetH h addr' (k2 :: rest) v
    | _ =>
      let (h1, addr') := halloc h []
      let h2 := heapWrite h1 addr (objSetH (heapObj h1 addr) k (.ref addr'))
      lodashSetH h2 addr' (k2 :: rest) v

/-- Heap-level lodash `get` reading from the object at `addr`. -/
def lodashGetH (h : Heap) (addr : Nat) : List String → HVal
  | [] => .ref addr
  | [k] => objGetH (heapObj h addr) k
  | k :: k2 :: rest =>
    match objGetH (heapObj h addr) k with
    | .ref addr' => lodashGetH h addr' (k2 :: rest)
    | _ => ( .undef)

/-- Heap-level `ON_FIELD_VALUE_CHANGE` handler (lines 61-70), with
`fvAddr` the address of `state.fieldsValues`: allocates the shallow copy
`{...state.fieldsValues}`, runs `set(copy, name, value)` — which writes
through any nested references the copy shares with the original — and
allocates the spread `{...state.fieldsValues, ...copy}` as the new
`fieldsValues`.  Returns the heap after the call and the new address. -/
def onFieldValueChangeH (h : Heap) (fvAddr : Nat) (name : String) (value : HVal) :
    Heap × Nat :=
  let (h1, copyAddr) := halloc h (heapObj h fvAddr)
  let h2 := lodashSetH h1 copyAddr (toPath name) value
  let merged := (heapObj h2 copyAddr).foldl (fun acc kv => objSetH acc kv.1 kv.2)
    (heapObj h2 fvAddr)
  halloc h2 merged


/-! ## Lemmas about objects -/

/-- Induction principle for `JSObj` alone (the development never needs to
recurse through the values, so the mutual recursor is specialized away). -/
def JSObj.myInduction (motive : JSObj → Prop) (nil : motive .nil)
    (cons : ∀ (key : String) (value : JSVal) (rest : JSObj),
      motive rest → motive (.cons key value rest)) : ∀ o, motive o
  | .nil => nil
  | .cons k v rest => cons k v rest (JSObj.myInduction motive nil cons rest)

theorem objGet_objSet_self (o : JSObj) (k : String) (v : JSVal) :
    objGet (objSet o k v) k = v := by
  induction o using JSObj.myInduction with
  | nil => simp [objSet, objGet]
  | cons k' v' rest ih =>
    by_cases h : k' = k
    · simp [objSet, objGet, h]
    · simp [objSet, objGet, h, ih]

theorem objGet_objSet_ne (o : JSObj) (k k' : String) (v : JSVal) (h : k ≠ k') :
    objGet (objSet o k v) k' = objGet o k' := by
  induction o using JSObj.myInduction with
  | nil => simp [objSet, objGet, h]
  | cons k0 v0 rest ih =>
    by_cases h0 : k0 = k
    · subst h0; simp [objSet, objGet, h]
    · simp [objSet, objGet, h0, ih]

theorem objSet_objSet_same (o : JSObj) (k : String) (v w : JSVal) :
    objSet (objSet o k v) k w = objSet o k w := by
  induction o using JSObj.myInduction with
  | nil => simp [objSet]
  | cons k0 v0 rest ih =>
    by_cases h0 : k0 = k
    · simp [objSet, h0]
    · simp [objSet, h0, ih]

theorem objKeys_objSet_of_mem (o : JSObj) (k : String) (v : JSVal)
    (h : k ∈ objKeys o) : objKeys (objSet o k v) = objKeys o := by
  induction o using JSObj.myInduction with
  | nil => simp [objKeys] at h
  | cons k0 v0 rest ih =>
    by_cases h0 : k0 = k
    · simp [objSet, objKeys, h0]
    · have : k ∈ objKeys rest := by
        rcases (by simpa [objKeys] using h : k = k0 ∨ k ∈ objKeys rest) with h1 | h1
        · exact absurd h1 (Ne.symm h0)
        · exact h1
      simp [objSet, objKeys, h0, ih this]

theorem objKeys_objSet_of_not_mem (o : JSObj) (k : String) (v : JSVal)
    (h : k ∉ objKeys o) : objKeys (objSet o k v) = objKeys o ++ [k] := by
  induction o using JSObj.myInduction with
  | nil => simp [objSet, objKeys]
  | cons k0 v0 rest ih =>
    have h0 : k0 ≠ k := by
      intro he; exact h (by simp [objKeys, he])
    have hrest : k ∉ objKeys rest := fun hr => h (by simp [objKeys, hr])
    simp [objSet, objKeys, h0, ih hrest]

theorem objSet_cons_ne (a : JSObj) (k0 k : String) (w v : JSVal) (h : k0 ≠ k) :
    objSet (.cons k0 w a) k v = .cons k0 w (objSet a k v) := by
  simp [objSet, h]

theorem jsSpread_cons_out (b : JSObj) (a : JSObj) (k : String) (w : JSVal)
    (h : k ∉ objKeys b) : jsSpread (.cons k w a) b = .cons k w (jsSpread a b) := by
  induction b using JSObj.myInduction generalizing a with
  | nil => rfl
  | cons kb vb rest ih =>
    have hkb : k ∉ objKeys rest := fun hr => h (by simp [objKeys, hr])
    have hne : k ≠ kb := by
      intro he; exact h (by simp [objKeys, he])
    calc jsSpread (.cons k w a) (.cons kb vb rest)
        = jsSpread (objSet (.cons k w a) kb vb) rest := rfl
      _ = jsSpread (.cons k w (objSet a kb vb)) rest := by
          rw [objSet_cons_ne a k kb w vb hne]
      _ = .cons k w (jsSpread (objSet a kb vb) rest) := ih _ hkb
      _ = .cons k w (jsSpread a (.cons kb vb rest)) := rfl

theorem jsSpread_nil_left (b : JSObj) (hnd : (objKeys b).Nodup) :
    jsSpread .nil b = b := by
  induction b using JSObj.myInduction with
  | nil => rfl
  | cons k v rest ih =>
    have hk : k ∉ objKeys rest := by
      simpa [objKeys] using (List.nodup_cons.mp (by simpa [objKeys] using hnd)).1
    have hrest : (objKeys rest).Nodup :=
      (List.nodup_cons.mp (by simpa [objKeys] using hnd)).2
    calc jsSpread JSObj.nil (.cons k v rest)
        = jsSpread (.cons k v .nil) rest := rfl
      _ = .cons k v (jsSpread .nil rest) := jsSpread_cons_out rest .nil k v hk
      _ = .cons k v rest := by rw [ih hrest]

theorem jsSpread_eta (a : JSObj) (b : JSObj) (ks : List String)
    (hkeys : objKeys b = objKeys a ++ ks) (hnd : (objKeys b).Nodup) :
    jsSpread a b = b := by
  induction a using JSObj.myInduction generalizing b ks with
  | nil => exact jsSpread_nil_left b hnd
  | cons k0 v0 a' ih =>
    cases b with
    | nil =>
      exfalso
      have := hkeys
      simp [objKeys] at this
    | cons kb wb b' =>
      have hk : kb = k0 ∧ objKeys b' = objKeys a' ++ ks := by
        have := hkeys
        simpa [objKeys] using this
      obtain ⟨hkb, hkeys'⟩ := hk
      subst hkb
      have hnotin : kb ∉ objKeys b' :=
        (List.nodup_cons.mp (by simpa [objKeys] using hnd)).1
      have hnd' : (objKeys b').Nodup :=
        (List.nodup_cons.mp (by simpa [objKeys] using hnd)).2
      calc jsSpread (.cons kb v0 a') (.cons kb wb b')
          = jsSpread (objSet (.cons kb v0 a') kb wb) b' := rfl
        _ = jsSpread (.cons kb wb a') b' := by simp [objSet]
        _ = .cons kb wb (jsSpread a' b') := jsSpread_cons_out b' a' kb wb hnotin
        _ = .cons kb wb b' := by rw [ih b' ks hkeys' hnd']

/-! ## Lemmas about path writes -/

theorem lodashSetObj_cons_shape (o : JSObj) (k : String) (rest : List String) (v : JSVal) :
    ∃ X, lodashSetObj o (k :: rest) v = objSet o k X := by
  cases rest with
  | nil => exact ⟨v, rfl⟩
  | cons k2 r => exact ⟨_, rfl⟩

theorem jsSpread_lodashSetObj_absorb (o : JSObj) (p : List String) (v : JSVal)
    (hnd : (objKeys o).Nodup) (hp : p ≠ []) :
    jsSpread o (lodashSetObj o p v) = lodashSetObj o p v := by
  cases p with
  | nil => exact absurd rfl hp
  | cons k rest =>
    obtain ⟨X, hX⟩ := lodashSetObj_cons_shape o k rest v
    rw [hX]
    by_cases h : k ∈ objKeys o
    · exact jsSpread_eta o _ [] (by rw [objKeys_objSet_of_mem o k X h, List.append_nil])
        (by rw [objKeys_objSet_of_mem o k X h]; exact hnd)
    · refine jsSpread_eta o _ [k] (objKeys_objSet_of_not_mem o k X h) ?_
      rw [objKeys_objSet_of_not_mem o k X h]
      simp [List.nodup_append, hnd, h]

theorem nodup_objKeys_lodashSetObj (o : JSObj) (p : List String) (v : JSVal)
    (hnd : (objKeys o).Nodup) : (objKeys (lodashSetObj o p v)).Nodup := by
  cases p with
  | nil => exact hnd
  | cons k rest =>
    obtain ⟨X, hX⟩ := lodashSetObj_cons_shape o k rest v
    rw [hX]
    by_cases h : k ∈ objKeys o
    · rw [objKeys_objSet_of_mem o k X h]; exact hnd
    · rw [objKeys_objSet_of_not_mem o k X h]
      simp [List.nodup_append, hnd, h]

theorem toPathAux_ne_nil (cs : List Char) (cur : String) : toPathAux cs cur ≠ [] := by
  induction cs generalizing cur with
  | nil => simp [toPathAux]
  | cons c rest ih =>
    simp only [toPathAux]
    split
    · simp
    · split
      · exact ih _
      · exact ih _

theorem toPath_ne_nil (s : String) : toPath s ≠ [] := toPathAux_ne_nil s.data ""

theorem lodashGetObj_lodashSetObj_self (p : List String) (o : JSObj) (v : JSVal)
    (hp : p ≠ []) : lodashGetObj (lodashSetObj o p v) p = v := by
  induction p generalizing o with
  | nil => exact absurd rfl hp
  | cons k p' ih =>
    cases p' with
    | nil => simp [lodashSetObj, lodashGetObj, objGet_objSet_self]
    | cons k2 rest =>
      simp only [lodashSetObj, lodashGetObj, objGet_objSet_self]
      exact ih _ (by simp)

theorem lodashGetObj_lodashSetObj_branch (p : List String) (q : List String) (o : JSObj)
    (v : JSVal) (hb : pathBranch p q = true) (hq : lodashGetObj o q ≠ .undef) :
    lodashGetObj (lodashSetObj o p v) q = lodashGetObj o q := by
  induction p generalizing q o with
  | nil => simp [pathBranch] at hb
  | cons a p' ih =>
    cases q with
    | nil => simp [pathBranch] at hb
    | cons b q' =>
      by_cases hab : a = b
      · subst hab
        have hb' : pathBranch p' q' = true := by simpa [pathBranch] using hb
        have hp' : p' ≠ [] := by
          intro he; subst he; simp [pathBranch] at hb'
        have hq' : q' ≠ [] := by
          intro he; subst he
          cases p' with
          | nil => exact hp' rfl
          | cons c cs => simp [pathBranch] at hb'
        obtain ⟨c, cs, rfl⟩ : ∃ c cs, p' = c :: cs := by
          cases p' with
          | nil => exact absurd rfl hp'
          | cons c cs => exact ⟨c, cs, rfl⟩
        obtain ⟨d, ds, rfl⟩ : ∃ d ds, q' = d :: ds := by
          cases q' with
          | nil => exact absurd rfl hq'
          | cons d ds => exact ⟨d, ds, rfl⟩
        cases hoa : objGet o a with
        | obj f =>
          have hqf : lodashGetObj f (d :: ds) ≠ .undef := by
            simpa [lodashGetObj, hoa] using hq
          calc lodashGetObj (lodashSetObj o (a :: c :: cs) v) (a :: d :: ds)
              = lodashGetObj (lodashSetObj f (c :: cs) v) (d :: ds) := by
                simp [lodashSetObj, lodashGetObj, objGet_objSet_self, hoa]
            _ = lodashGetObj f (d :: ds) := ih (d :: ds) f hb' hqf
            _ = lodashGetObj o (a :: d :: ds) := by simp [lodashGetObj, hoa]
        | undef => exact absurd (by simp [lodashGetObj, hoa]) hq
        | null => exact absurd (by simp [lodashGetObj, hoa]) hq
        | bool b0 => exact absurd (by simp [lodashGetObj, hoa]) hq
        | num n0 => exact absurd (by simp [lodashGetObj, hoa]) hq
        | str s0 => exact absurd (by simp [lodashGetObj, hoa]) hq
      · obtain ⟨X, hX⟩ := lodashSetObj_cons_shape o a p' v
        rw [hX]
        cases q' with
        | nil => simp [lodashGetObj, objGet_objSet_ne o a b X hab]
        | cons d ds => simp [lodashGetObj, objGet_objSet_ne o a b X hab]

theorem lodashSetObj_idem (p : List String) (o : JSObj) (v : JSVal) (hp : p ≠ []) :
    lodashSetObj (lodashSetObj o p v) p v = lodashSetObj o p v := by
  induction p generalizing o with
  | nil => exact absurd rfl hp
  | cons k p' ih =>
    cases p' with
    | nil => simp [lodashSetObj, objSet_objSet_same]
    | cons k2 rest =>
      simp only [lodashSetObj, objGet_objSet_self]
      rw [ih _ (by simp), objSet_objSet_same]

theorem lodashGetObj_lodashSetObj_app_obj (pre : List String) (suf : List String)
    (o : JSObj) (v : JSVal) (hpre : pre ≠ []) (hsuf : suf ≠ []) :
    ∃ f, lodashGetObj (lodashSetObj o (pre ++ suf) v) pre = .obj f := by
  induction pre generalizing o with
  | nil => exact absurd rfl hpre
  | cons a pre' ih =>
    cases pre' with
    | nil =>
      cases suf with
      | nil => exact absurd rfl hsuf
      | cons s1 srest =>
        exact ⟨lodashSetObj (match objGet o a with | .obj f => f | _ => .nil) (s1 :: srest) v,
          by simp [lodashSetObj, lodashGetObj, objGet_objSet_self]⟩
    | cons b pre'' =>
      obtain ⟨f, hf⟩ := ih (match objGet o a with | .obj f => f | _ => .nil) (by simp)
      exact ⟨f, by
        simpa [lodashSetObj, lodashGetObj, objGet_objSet_self] using hf⟩

/-! ## Lemmas about the reducer -/

theorem reducer_errorsChange (s : FormBuiderState) (n : String) (v : JSVal) :
    reducer s (errorsChangeAction n v) = { s with errors := objSet s.errors n v } := rfl

theorem reducer_fieldValueChange (s : FormBuiderState) (n : String) (v : JSVal) :
    reducer s (fieldValueChangeAction n v)
      = { s with
          fieldsValues :=
            jsSpread s.fieldsValues (lodashSetObj s.fieldsValues (toPath n) v) } := rfl

/-- With duplicate-free keys (every actual JS object), the spread in the
`ON_FIELD_VALUE_CHANGE` handler collapses: the new `fieldsValues` is exactly
the lodash `set` result. -/
theorem reducer_fieldValueChange_eq (s : FormBuiderState) (n : String) (v : JSVal)
    (hnd : (objKeys s.fieldsValues).Nodup) :
    reducer s (fieldValueChangeAction n v)
      = { s with fieldsValues := lodashSetObj s.fieldsValues (toPath n) v } := by
  rw [reducer_fieldValueChange,
    jsSpread_lodashSetObj_absorb s.fieldsValues (toPath n) v hnd (toPath_ne_nil n)]

theorem foldl_reducer_fieldsValues (entries : List (String × String)) (s : FormBuiderState)
    (hnd : (objKeys s.fieldsValues).Nodup) :
    (entries.foldl (fun st kv => reducer st (fieldValueChangeAction kv.1 (.str kv.2)))
        s).fieldsValues
      = entries.foldl (fun o kv => lodashSetObj o (toPath kv.1) (.str kv.2))
          s.fieldsValues := by
  induction entries generalizing s with
  | nil => rfl
  | cons e rest ih =>
    simp only [List.foldl_cons]
    rw [reducer_fieldValueChange_eq s e.1 (.str e.2) hnd]
    exact ih _ (nodup_objKeys_lodashSetObj _ _ _ hnd)

/-! ## Claim theorems -/

/-- Claim C10: reducing with `ON_FIELD_VALUE_CHANGE` leaves `errors` and
`loadingInitialData` unchanged, and reducing with `ON_ERRORS_CHANGE` leaves
`fieldsValues` and `loadingInitialData` unchanged — each action touches only
its own state field. -/
theorem fieldValue_and_errors_actions_frame (s : FormBuiderState) (n : String) (v : JSVal) :
    (reducer s (fieldValueChangeAction n v)).errors = s.errors
    ∧ (reducer s (fieldValueChangeAction n v)).loadingInitialData = s.loadingInitialData
    ∧ (reducer s (errorsChangeAction n v)).fieldsValues = s.fieldsValues
    ∧ (reducer s (errorsChangeAction n v)).loadingInitialData = s.loadingInitialData :=
  ⟨rfl, rfl, rfl, rfl⟩

/-- Claim C2: for every state and every action whose type is not one of the
three recognized action types, the reducer returns the state unchanged and
the emitted diagnostic names the unrecognized type together with the
known-action table.  The model is a total function, so no exception can
arise. -/
theorem reducer_unknown_action (s : FormBuiderState) (t : String) (payload : FormPayload)
    (ht : t ∉ actionsMapKeys) :
    reducer s { type := t, payload := payload } = s
    ∧ reducerDiagnostic { type := t, payload := payload }
        = some ("ACTION [" ++ t ++ "] NOT FOUND IN actionsMap", actionsMapKeys) := by
  constructor
  · simp [reducer, ht]
  · simp [reducerDiagnostic, ht]

/-- Witness for C2 at the concrete unrecognized type `"RESET"`. -/
theorem reducer_unknown_action_witness :
    reducer initialState { type := "RESET", payload := .field "x" .undef } = initialState
    ∧ reducerDiagnostic { type := "RESET", payload := .field "x" .undef }
        = some ("ACTION [RESET] NOT FOUND IN actionsMap", actionsMapKeys) := by
  have h := reducer_unknown_action initialState "RESET" (.field "x" .undef) (by decide)
  exact ⟨h.1, h.2.trans (by decide)⟩

/-- Claim C9: applying the same `ON_FIELD_VALUE_CHANGE` action twice yields
the same state as applying it once (for the duplicate-free key lists every
actual JS object has). -/
theorem fieldValueChange_idem (s : FormBuiderState) (n : String) (v : JSVal)
    (hnd : (objKeys s.fieldsValues).Nodup) :
    reducer (reducer s (fieldValueChangeAction n v)) (fieldValueChangeAction n v)
      = reducer s (fieldValueChangeAction n v) := by
  rw [reducer_fieldValueChange_eq s n v hnd]
  rw [reducer_fieldValueChange_eq _ n v
    (nodup_objKeys_lodashSetObj s.fieldsValues (toPath n) v hnd)]
  rw [lodashSetObj_idem (toPath n) s.fieldsValues v (toPath_ne_nil n)]

/-- Witness for C9 at a concrete state and nested path. -/
theorem fieldValueChange_idem_witness :
    reducer
      (reducer { errors := .nil, fieldsValues := .cons "a" (.num 1) .nil,
                 loadingInitialData := false }
        (fieldValueChangeAction "address.city" (.str "Oslo")))
      (fieldValueChangeAction "address.city" (.str "Oslo"))
    = reducer { errors := .nil, fieldsValues := .cons "a" (.num 1) .nil,
                loadingInitialData := false }
        (fieldValueChangeAction "address.city" (.str "Oslo")) :=
  fieldValueChange_idem _ "address.city" (.str "Oslo") (by decide)

/-- Counterexample to claim C1 as stated: after `ON_FIELD_VALUE_CHANGE`
with name `"a.b"`, the distinct previously-set path `"a"` no longer
resolves to its prior value `1` (it now resolves to the created
intermediate object). -/
theorem fieldValueChange_clobbers_overlapping_path :
    "a" ≠ "a.b"
    ∧ lodashGetObj (JSObj.cons "a" (.num 1) .nil) (toPath "a") = .num 1
    ∧ lodashGetObj
        (reducer { errors := .nil, fieldsValues := .cons "a" (.num 1) .nil,
                   loadingInitialData := false }
          (fieldValueChangeAction "a.b" (.num 2))).fieldsValues (toPath "a")
        ≠ .num 1 := by
  refine ⟨by decide, by decide, by decide⟩

/-- Claim C1 (amended): `ON_FIELD_VALUE_CHANGE{n, v}` makes path `n` resolve
to `v`, creates intermediate objects for every proper segment of `n`, and
preserves every previously-set path that branches from `n` (paths that are a
prefix of `n` or extend `n` are overwritten by the lodash `set` walk). -/
theorem fieldValueChange_path_semantics (s : FormBuiderState) (n : String) (v : JSVal)
    (hnd : (objKeys s.fieldsValues).Nodup) :
    lodashGetObj (reducer s (fieldValueChangeAction n v)).fieldsValues (toPath n) = v
    ∧ (∀ p : String, pathBranch (toPath n) (toPath p) = true →
        lodashGetObj s.fieldsValues (toPath p) ≠ .undef →
        lodashGetObj (reducer s (fieldValueChangeAction n v)).fieldsValues (toPath p)
          = lodashGetObj s.fieldsValues (toPath p))
    ∧ (∀ pre suf : List String, toPath n = pre ++ suf → pre ≠ [] → suf ≠ [] →
        ∃ f, lodashGetObj (reducer s (fieldValueChangeAction n v)).fieldsValues pre
          = .obj f) := by
  rw [reducer_fieldValueChange_eq s n v hnd]
  refine ⟨lodashGetObj_lodashSetObj_self (toPath n) s.fieldsValues v (toPath_ne_nil n),
    ?_, ?_⟩
  · intro p hb hq
    exact lodashGetObj_lodashSetObj_branch (toPath n) (toPath p) s.fieldsValues v hb hq
  · intro pre suf happ hpre hsuf
    rw [happ]
    exact lodashGetObj_lodashSetObj_app_obj pre suf s.fieldsValues v hpre hsuf

/-- Witness for the amended C1: writing `"address.city"` resolves it to the
written value, keeps the branching previously-set path `"x"`, and makes the
intermediate `"address"` an object. -/
theorem fieldValueChange_path_semantics_witness :
    lodashGetObj
      (reducer { errors := .nil, fieldsValues := .cons "x" (.num 1) .nil,
                 loadingInitialData := false }
        (fieldValueChangeAction "address.city" (.str "Oslo"))).fieldsValues
      (toPath "address.city") = .str "Oslo"
    ∧ lodashGetObj
        (reducer { errors := .nil, fieldsValues := .cons "x" (.num 1) .nil,
                   loadingInitialData := false }
          (fieldValueChangeAction "address.city" (.str "Oslo"))).fieldsValues
        (toPath "x") = .num 1
    ∧ ∃ f, lodashGetObj
        (reducer { errors := .nil, fieldsValues := .cons "x" (.num 1) .nil,
                   loadingInitialData := false }
          (fieldValueChangeAction "address.city" (.str "Oslo"))).fieldsValues
        ["address"] = .obj f := by
  have h := fieldValueChange_path_semantics
    { errors := .nil, fieldsValues := .cons "x" (.num 1) .nil, loadingInitialData := false }
    "address.city" (.str "Oslo") (by decide)
  refine ⟨h.1, ?_, h.2.2 ["address"] ["city"] (by decide) (by decide) (by decide)⟩
  have h2 := h.2.1 "x" (by decide) (by decide)
  rw [h2]
  decide

/-- Claim C3 evidence (code bug): the `ON_FIELD_VALUE_CHANGE` handler is not
side-effect free.  With input `fieldsValues` `{a: {b: 1}}` (root at heap
address 0, the nested object at address 1) and action
`{name: "a.c", value: 2}`, lodash `set` runs on a shallow copy whose `a`
still references address 1, so it writes `c: 2` into the object the INPUT
state reaches: read through the original root, `"a.c"` resolves to `undefined`
before the call and to `2` after it. -/
theorem fieldValueChange_mutates_shared_nested_object :
    lodashGetH [[("a", HVal.ref 1)], [("b", HVal.num 1)]] 0 (toPath "a.c") = .undef
    ∧ lodashGetH
        (onFieldValueChangeH [[("a", HVal.ref 1)], [("b", HVal.num 1)]] 0 "a.c"
          (.num 2)).1 0 (toPath "a.c") = .num 2
    ∧ heapObj
        (onFieldValueChangeH [[("a", HVal.ref 1)], [("b", HVal.num 1)]] 0 "a.c"
          (.num 2)).1 1
        = [("b", .num 1), ("c", .num 2)] := by
  refine ⟨by decide, by decide, by decide⟩

/-- Claim C4: the hook accessor's `onChange` with a validator configured
stores a truthy validator result verbatim under `errors[name]`, stores
`false` there otherwise, and in both cases then writes the value into
`fieldsValues` at the field path — the value is written even when
validation fails. -/
theorem useFormBuilderField_onChange_validation (s : FormBuiderState)
    (validate : JSVal → JSVal) (fieldName : String) (v : JSVal)
    (hnd : (objKeys s.fieldsValues).Nodup) :
    (jsTruthy (validate v) = true →
      objGet (stateAfterOnChange (some validate) fieldName v s).errors fieldName
        = validate v)
    ∧ (jsTruthy (validate v) = false →
      objGet (stateAfterOnChange (some validate) fieldName v s).errors fieldName
        = .bool false)
    ∧ lodashGetObj (stateAfterOnChange (some validate) fieldName v s).fieldsValues
        (toPath fieldName) = v := by
  refine ⟨?_, ?_, ?_⟩
  · intro h
    simp only [stateAfterOnChange, useFormBuilderFieldOnChange, h, if_true,
      List.foldl_cons, List.foldl_nil]
    exact objGet_objSet_self s.errors fieldName (validate v)
  · intro h
    simp only [stateAfterOnChange, useFormBuilderFieldOnChange, h, Bool.false_eq_true,
      if_false, List.foldl_cons, List.foldl_nil]
    exact objGet_objSet_self s.errors fieldName (.bool false)
  · simp only [stateAfterOnChange, useFormBuilderFieldOnChange, List.foldl_cons,
      List.foldl_nil]
    have hs1 : ∀ e : JSVal,
        lodashGetObj
          (reducer (reducer s (errorsChangeAction fieldName e))
            (fieldValueChangeAction fieldName v)).fieldsValues (toPath fieldName) = v := by
      intro e
      rw [reducer_fieldValueChange_eq (reducer s (errorsChangeAction fieldName e))
        fieldName v hnd]
      exact lodashGetObj_lodashSetObj_self (toPath fieldName) s.fieldsValues v
        (toPath_ne_nil fieldName)
    split
    · exact hs1 _
    · exact hs1 _

/-- Witness for C4, following the spec scenario: validator
`v => v < 0 && "must be positive"`; `onChange(-5)` stores the message,
`onChange(5)` stores `false`, and both write the value. -/
theorem useFormBuilderField_onChange_validation_witness :
    objGet (stateAfterOnChange (some mustBePositive) "amount" (.num (-5))
        initialState).errors "amount" = .str "must be positive"
    ∧ objGet (stateAfterOnChange (some mustBePositive) "amount" (.num 5)
        initialState).errors "amount" = .bool false
    ∧ lodashGetObj (stateAfterOnChange (some mustBePositive) "amount" (.num 5)
        initialState).fieldsValues (toPath "amount") = .num 5 := by
  refine ⟨?_, ?_, ?_⟩
  · exact ((useFormBuilderField_onChange_validation initialState mustBePositive "amount"
      (.num (-5)) (by decide)).1 (by decide)).trans (by decide)
  · exact (useFormBuilderField_onChange_validation initialState mustBePositive "amount"
      (.num 5) (by decide)).2.1 (by decide)
  · exact (useFormBuilderField_onChange_validation initialState mustBePositive "amount"
      (.num 5) (by decide)).2.2

/-- Claim C5: the hook accessor's `value` is the resolved path value when
that value is truthy and the supplied default otherwise — so the default is
used both when the path is absent and when the stored value is
falsy-but-present (`0`, `""`, `false`); the spec scenario for field `"age"`
with default `18` also holds through an `onChange(21)` round trip. -/
theorem useFormBuilderField_value_fallback :
    (∀ (fieldName : String) (defaultValue : JSVal) (validator : Option (JSVal → JSVal))
        (s : FormBuiderState),
      (useFormBuilderFieldBinding fieldName defaultValue validator s).value
        = if jsTruthy (lodashGetObj s.fieldsValues (toPath fieldName)) then
            lodashGetObj s.fieldsValues (toPath fieldName)
          else defaultValue)
    ∧ (useFormBuilderFieldBinding "age" (.num 18) none initialState).value = .num 18
    ∧ (useFormBuilderFieldBinding "age" (.num 18) none
        { errors := .nil, fieldsValues := .cons "age" (.num 0) .nil,
          loadingInitialData := false }).value = .num 18
    ∧ (useFormBuilderFieldBinding "name" (.str "anon") none
        { errors := .nil, fieldsValues := .cons "name" (.str "") .nil,
          loadingInitialData := false }).value = .str "anon"
    ∧ (useFormBuilderFieldBinding "flag" (.bool true) none
        { errors := .nil, fieldsValues := .cons "flag" (.bool false) .nil,
          loadingInitialData := false }).value = .bool true
    ∧ (useFormBuilderFieldBinding "age" (.num 18) none
        (stateAfterOnChange none "age" (.num 21) initialState)).value = .num 21
    ∧ (useFormBuilderFieldBinding "age" (.num 18) none
        (stateAfterOnChange none "age" (.num 21) initialState)).fieldError = .undef := by
  refine ⟨fun _ _ _ _ => rfl, by decide, by decide, by decide, by decide, by decide,
    by decide⟩

/-- Claim C6: on submission the controller folds every `(key, value)` entry
into a single nested values object with `set` — the identical path-write
semantics the reducer uses for `fieldsValues` — and passes that object to
`onSubmit`; the spec example `name="Ada"`, `address.city="Oslo"` builds
`{name: "Ada", address: {city: "Oslo"}}`. -/
theorem submit_builds_values_with_reducer_path_semantics :
    (∀ entries : List (String × String),
      submitValues entries
        = (entries.foldl
            (fun st kv => reducer st (fieldValueChangeAction kv.1 (.str kv.2)))
            initialState).fieldsValues)
    ∧ submitValues [("name", "Ada"), ("address.city", "Oslo")]
        = .cons "name" (.str "Ada")
            (.cons "address" (.obj (.cons "city" (.str "Oslo") .nil)) .nil) := by
  constructor
  · intro entries
    rw [foldl_reducer_fieldsValues entries initialState (by decide)]
    rfl
  · decide

/-- Claim C7: with an `initialFieldValuesLoader` configured, the mount-time
dispatch turns the loading flag on, and the clearing dispatch — carrying the
loaded `fieldsValues` — fires exactly 3000 ms after the loader resolves, so
at every instant before that the loading flag is still true, however fast
the loader resolved. -/
theorem loadInitialData_loading_window (loaded : JSObj) (resolveTime t : Nat) :
    (t < resolveTime + 3 * 1000 →
      (stateAt (loadInitialDataDispatches resolveTime loaded) initialState
        t).loadingInitialData = true)
    ∧ (resolveTime + 3 * 1000 ≤ t →
      (stateAt (loadInitialDataDispatches resolveTime loaded) initialState
          t).loadingInitialData = false
      ∧ (stateAt (loadInitialDataDispatches resolveTime loaded) initialState
          t).fieldsValues = loaded) := by
  constructor
  · intro hlt
    have hnot : ¬ (resolveTime + 3 * 1000 ≤ t) := Nat.not_le.mpr hlt
    simp only [stateAt, loadInitialDataDispatches, List.foldl_cons, List.foldl_nil]
    rw [if_pos (Nat.zero_le t), if_neg hnot]
    decide
  · intro hle
    simp only [stateAt, loadInitialDataDispatches, List.foldl_cons, List.foldl_nil]
    rw [if_pos (Nat.zero_le t), if_pos hle]
    exact ⟨rfl, rfl⟩

/-- Witness for C7: with the loader resolving at once (t = 0) to
`{name: "Ada"}`, the placeholder is still shown at 2999 ms and the loaded
values are in place with the flag cleared at 3000 ms. -/
theorem loadInitialData_loading_window_witness :
    (stateAt (loadInitialDataDispatches 0 (.cons "name" (.str "Ada") .nil)) initialState
      2999).loadingInitialData = true
    ∧ (stateAt (loadInitialDataDispatches 0 (.cons "name" (.str "Ada") .nil)) initialState
      3000).loadingInitialData = false
    ∧ (stateAt (loadInitialDataDispatches 0 (.cons "name" (.str "Ada") .nil)) initialState
      3000).fieldsValues = .cons "name" (.str "Ada") .nil :=
  ⟨(loadInitialData_loading_window (.cons "name" (.str "Ada") .nil) 0 2999).1 (by decide),
   ((loadInitialData_loading_window (.cons "name" (.str "Ada") .nil) 0 3000).2
     (by decide)).1,
   ((loadInitialData_loading_window (.cons "name" (.str "Ada") .nil) 0 3000).2
     (by decide)).2⟩

/-- Counterexample to claim C8 as stated: for the same field name and the
same context state the two accessors do NOT return the same result.  With no
stored value, the hook (default `18`) returns `value = 18` while the
render-prop form returns `undefined` — so the full records differ — and with
a validator configured the hook's `onChange` dispatches an error update the
render-prop form never dispatches. -/
theorem accessors_differ :
    useFormBuilderFieldBinding "age" (.num 18) none initialState
      ≠ FormBuilderFieldBinding "age" initialState
    ∧ (useFormBuilderFieldBinding "age" (.num 18) (some mustBePositive)
        initialState).onChangeActions (.num (-5))
      ≠ (FormBuilderFieldBinding "age" initialState).onChangeActions (.num (-5)) := by
  constructor
  · intro h
    have hv := congrArg FieldBinding.value h
    exact absurd hv (by decide)
  · decide

/-- Claim C8 (amended): both accessors read `fieldError` and `state`
identically and pass the context's `dispatch` and `onFieldChange` through;
when the hook is given no validator their `onChange` dispatches the same
single field-value change, and the full results coincide exactly when the
resolved value is truthy — otherwise the hook substitutes its default where
the render-prop form returns the resolved (possibly undefined) value. -/
theorem accessors_agree_without_validator (fieldName : String) (defaultValue : JSVal)
    (s : FormBuiderState)
    (ht : jsTruthy (lodashGetObj s.fieldsValues (toPath fieldName)) = true) :
    useFormBuilderFieldBinding fieldName defaultValue none s
      = FormBuilderFieldBinding fieldName s := by
  unfold useFormBuilderFieldBinding FormBuilderFieldBinding useFormBuilderFieldOnChange
    jsOr
  rw [if_pos ht]

/-- Witness for the amended C8 at a state whose stored `"name"` is the
truthy `"Ada"`. -/
theorem accessors_agree_without_validator_witness :
    useFormBuilderFieldBinding "name" (.num 0) none
      { errors := .nil, fieldsValues := .cons "name" (.str "Ada") .nil,
        loadingInitialData := false }
      = FormBuilderFieldBinding "name"
          { errors := .nil, fieldsValues := .cons "name" (.str "Ada") .nil,
            loadingInitialData := false } :=
  accessors_agree_without_validator "name" (.num 0)
    { errors := .nil, fieldsValues := .cons "name" (.str "Ada") .nil,
      loadingInitialData := false } (by decide)
